import Mathlib

/-!
# Verification of the Notes Vault core (`src/note.py`)

A shallow embedding of the note lifecycle / undo / search / sort core of
`note.py` (a single-file Python CLI notes app), together with theorems
settling the frozen claims about it.

Modelling conventions:

* Python `str` values are Lean `String`s; all algorithmic work on text
  (lower-casing, splitting, substring search, lexicographic comparison)
  is done on `List Char` (the `.data` of the string), mirroring Python's
  per-code-point semantics.  Python's `str` comparison operators are
  lexicographic on code points, modelled by `cmpChars`.
* A note is a JSON object; fields that the code reads with
  `n.get(k, default)` / `n.get(k) or ""` are modelled as total fields with
  the empty string standing for an absent-or-empty value (Python's `or`
  treats both `None` and `""` as falsy), except `archived_at` /
  `trashed_at`, which the code removes with `.pop`, and which are
  therefore `Option String` (`none` = key absent).
* `save_data` (persistence) has no observable effect on the in-memory
  state; where a claim talks about re-persisting, the operation returns a
  `Bool` flag that is `true` exactly when the code calls `save_data`.
* Wall-clock reads (`now_iso()`, `datetime.now()`) are passed in as
  explicit arguments.  `auto_purge_trash` computes
  `cutoff = (datetime.now() - timedelta(days=trash_days)).isoformat()`;
  that date arithmetic is not re-modelled: the function takes the
  `cutoff` string itself as its argument, exactly as it is subsequently
  used (a single Python string comparison against each `trashed_at`).
* Python's `list.sort` / `sorted` are stable sorts; they are modelled by
  a stable insertion sort (`stable_sort`) over the same boolean
  "may come first" comparator, which produces the identical output list.
* Interactive operations are modelled at the point after input
  collection / confirmation: e.g. `archive_note` is modelled
  post-confirmation, `edit_note` takes the accepted new field values as
  `Option`s (`none` = the prompt was left blank / the body edit was
  cancelled, so the code applies no change to that field).
-/

namespace NotesVault

/-- Lexicographic comparison of two character lists by code point,
matching Python's `str` comparison (`<`, `>` on `str`). -/
def cmpChars : List Char → List Char → Ordering
  | [], [] => .eq
  | [], _ :: _ => .lt
  | _ :: _, [] => .gt
  | a :: as, b :: bs =>
    if a < b then .lt
    else if b < a then .gt
    else cmpChars as bs

/-- Python's `a < b` on strings, as a boolean on the underlying
character lists. -/
def ltChars (a b : List Char) : Bool := cmpChars a b == .lt

/-- `needle` occurs as a contiguous substring of `hay`
(Python's `needle in hay` for strings). -/
def hasSubstr (needle : List Char) : List Char → Bool
  | [] => needle.isEmpty
  | c :: t => needle.isPrefixOf (c :: t) || hasSubstr needle t

/-- Auxiliary recursion for `strCount`: counts non-overlapping
occurrences of a non-empty `needle`, scanning left to right and
resuming after each match, exactly like CPython's `str.count`.  The
`skip` counter carries how many characters of the current match are
still to be consumed before scanning resumes (structural recursion on
the haystack standing in for `resume at i + len(needle)`). -/
def strCountAux (needle : List Char) : List Char → Nat → Nat
  | [], _ => 0
  | c :: t, 0 =>
    if needle.isPrefixOf (c :: t) then
      1 + strCountAux needle t (needle.length - 1)
    else
      strCountAux needle t 0
  | _ :: t, skip + 1 => strCountAux needle t skip

/-- Python's `hay.count(needle)`: number of non-overlapping occurrences;
`hay.count("")` is `len(hay) + 1` in Python. -/
def strCount (needle hay : List Char) : Nat :=
  if needle = [] then hay.length + 1 else strCountAux needle hay 0

/-- Auxiliary for `pySplit`: `acc` is the (reversed) current token. -/
def pySplitAux : List Char → List Char → List (List Char)
  | [], acc => if acc = [] then [] else [acc.reverse]
  | c :: t, acc =>
    if c.isWhitespace then
      if acc = [] then pySplitAux t [] else acc.reverse :: pySplitAux t []
    else
      pySplitAux t (c :: acc)

/-- Python's no-argument `str.split()`: split on runs of whitespace,
dropping empty tokens. -/
def pySplit (l : List Char) : List (List Char) := pySplitAux l []

/-- Python's `" ".join(strs)` on the underlying character lists. -/
def joinSpace : List String → List Char
  | [] => []
  | [t] => t.data
  | t :: rest => t.data ++ ' ' :: joinSpace rest

/-- Python's `s.lower()` on the underlying character list. -/
def lowerChars (l : List Char) : List Char := l.map Char.toLower

/-- Python's `s[:k]` (string slice from the start). -/
def strTake (s : String) (k : Nat) : String := ⟨s.data.take k⟩

/-- Python's `a or b` for strings (`""` and missing are falsy). -/
def pyOr (a b : String) : String := if a = "" then b else a

/-- Python's `s.strip()` restricted to whitespace. -/
def pyStrip (l : List Char) : List Char :=
  ((l.dropWhile Char.isWhitespace).reverse.dropWhile Char.isWhitespace).reverse

/-- A note record, as stored in the `notes` / `archive` / `trash`
arrays of the data document.  `archived_at` / `trashed_at` are `Option`
because the code removes those keys with `.pop` on restore. -/
structure Note where
  id : Int
  title : String
  body : String
  category : String
  tags : List String
  pinned : Bool
  created_at : String
  updated_at : String
  archived_at : Option String := none
  trashed_at : Option String := none
deriving Repr, DecidableEq

/-- `bool(note.get(field))` for an optional string field:
`None` and `""` are falsy. -/
def optTruthy (o : Option String) : Bool := o.getD "" ≠ ""

/-- An undo snapshot, as built by `push_undo`: a deep copy of the three
collections plus a description and timestamp. -/
structure Snapshot where
  desc : String
  ts : String
  notes : List Note
  archive : List Note
  trash : List Note
deriving Repr, DecidableEq

/-- The in-memory data document (the parts of `DEFAULT_DATA` the core
claims are about; `templates` and the `settings` dict carry no
algorithmic content here — the only setting the modelled code reads,
`trash_days`, enters only through the `cutoff` argument of
`auto_purge_trash`). -/
structure Store where
  notes : List Note
  archive : List Note
  trash : List Note
  categories : List String
  undo_stack : List Snapshot
deriving Repr, DecidableEq

/-- `next_id(data)`: all ids of `notes`, `archive` and `trash`, in that
order (`n.get("id", 0)` never defaults here since every modelled note
has an id). -/
def all_ids (data : Store) : List Int :=
  data.notes.map Note.id ++ data.archive.map Note.id ++ data.trash.map Note.id

/-- The notes of all three collections, in `notes`, `archive`, `trash`
order. -/
def allNotes (data : Store) : List Note :=
  data.notes ++ data.archive ++ data.trash

/-- `next_id(data)`: `max(all_ids) + 1`, or `1` if there are no notes at
all (Python guards `max` of an empty list with `if all_ids else 1`). -/
def next_id (data : Store) : Int :=
  match all_ids data with
  | [] => 1
  | a :: rest => rest.foldl max a + 1

/-- `MAX_UNDO = 10`. -/
def MAX_UNDO : Nat := 10

/-- `push_undo(data, desc)`: snapshot the three collections, append to
the stack, and truncate to the last `MAX_UNDO` entries
(`stack[-MAX_UNDO:]`) when the stack exceeds `MAX_UNDO`.  `ts` is the
`now_iso()` read. -/
def push_undo (data : Store) (desc ts : String) : Store :=
  let snapshot : Snapshot :=
    { desc := desc, ts := ts,
      notes := data.notes, archive := data.archive, trash := data.trash }
  let stack := data.undo_stack ++ [snapshot]
  { data with
    undo_stack :=
      if stack.length > MAX_UNDO then stack.drop (stack.length - MAX_UNDO)
      else stack }

/-- `do_undo(data)`: on an empty stack return `None` and change
nothing; otherwise pop the most recent snapshot, replace the three
collections with its contents (then `save_data`), and return its
description. -/
def do_undo (data : Store) : Option String × Store :=
  match data.undo_stack.getLast? with
  | none => (none, data)
  | some snap =>
    (some snap.desc,
     { data with
       notes := snap.notes, archive := snap.archive, trash := snap.trash,
       undo_stack := data.undo_stack.dropLast })

/-- The string the purge filter compares: `n.get("trashed_at") or ""`. -/
def trashedStr (n : Note) : String := n.trashed_at.getD ""

/-- `auto_purge_trash(data)` (run once at startup, right after
`load_data`).  `cutoff` is the string
`(datetime.now() - timedelta(days=trash_days)).isoformat()`; the code
keeps a trash entry iff `(n.get("trashed_at") or "") > cutoff`
(a Python string comparison).  The returned flag is `true` iff the code
calls `save_data` (i.e. iff at least one entry was purged).  No undo
snapshot is pushed and the other collections are untouched. -/
def auto_purge_trash (data : Store) (cutoff : String) : Store × Bool :=
  let newTrash := data.trash.filter (fun n => ltChars cutoff.data (trashedStr n).data)
  let purged := data.trash.length - newTrash.length
  ({ data with trash := newTrash }, purged > 0)

/-- `parse_tags(raw)`: split on commas, strip whitespace, drop empties,
deduplicate case-insensitively keeping the first occurrence's casing. -/
def parse_tags (raw : String) : List String :=
  let tags := ((raw.data.splitOn ',').map pyStrip).filter (fun t => t ≠ [])
  let rec dedup (seen : List (List Char)) : List (List Char) → List String
    | [] => []
    | t :: rest =>
      if lowerChars t ∈ seen then dedup seen rest
      else ⟨t⟩ :: dedup (lowerChars t :: seen) rest
  dedup [] tags

/- ── Note operations ──────────────────────────────────────────── -/

/-- `create_note(data)`, modelled after input collection succeeded
(non-empty stripped `title`, resolved `category`, parsed `tags`,
accepted `body`): append an unknown category to the category set, build
the note with a fresh id and fresh timestamps, push an undo snapshot,
and append the note to the active collection (then `save_data`).
`now` is the `now_iso()` read. -/
def create_note (data : Store) (title body category : String)
    (tags : List String) (now : String) : Store :=
  let data1 :=
    { data with
      categories :=
        if data.categories.contains category then data.categories
        else data.categories ++ [category] }
  let note : Note :=
    { id := next_id data1, title := title, body := body,
      category := category, tags := tags,
      created_at := now, updated_at := now, pinned := false }
  let data2 := push_undo data1 ("Create note #" ++ toString note.id) now
  { data2 with notes := data2.notes ++ [note] }

/-- `toggle_pin(data, note)`: flip the aliased note's `pinned` flag in
place and `save_data` — the note object is an element of the active
collection, so this is an in-place update of that entry.  No undo
snapshot is pushed. -/
def toggle_pin (data : Store) (nid : Int) : Store :=
  { data with
    notes := data.notes.map (fun n =>
      if n.id = nid then { n with pinned := !n.pinned } else n) }

/-- `duplicate_note(data, note)`: build a copy with a fresh id, the
title suffixed `" (copy)"`, fresh timestamps and `pinned = False`; push
an undo snapshot; append to the active collection. -/
def duplicate_note (data : Store) (note : Note) (now : String) : Store :=
  let new_note : Note :=
    { id := next_id data, title := note.title ++ " (copy)",
      body := note.body, category := note.category, tags := note.tags,
      created_at := now, updated_at := now, pinned := false }
  let data1 := push_undo data ("Duplicate #" ++ toString note.id) now
  { data1 with notes := data1.notes ++ [new_note] }

/-- `append_to_note(data, note)`, modelled after a non-cancelled,
non-blank `body` was captured: push an undo snapshot, then append the
text to the aliased note's body behind a timestamped separator and
refresh `updated_at`. -/
def append_to_note (data : Store) (nid : Int) (body now : String) : Store :=
  let data1 := push_undo data ("Append to #" ++ toString nid) now
  let sep := "\n\n--- " ++ strTake now 16 ++ " ---\n\n"
  { data1 with
    notes := data1.notes.map (fun n =>
      if n.id = nid then
        { n with
          body := if n.body ≠ "" then n.body ++ sep ++ body else body,
          updated_at := now }
      else n) }

/-- `edit_note(data, note)`, with the interactive prompts summarised as
`Option`s: `none` means the prompt was left blank (title/category/tags)
or the body edit was skipped/cancelled, so that field is not touched.
The code pushes one undo snapshot immediately before the *first*
applied change; afterwards it always refreshes `updated_at` and saves.
`new_tags` is the raw comma-separated string fed to `parse_tags`;
`new_body` is the final accepted body text. -/
def edit_note (data : Store) (nid : Int)
    (new_title new_cat new_tags new_body : Option String)
    (now : String) : Store :=
  let anyChange :=
    new_title.isSome || new_cat.isSome || new_tags.isSome || new_body.isSome
  let data1 :=
    if anyChange then push_undo data ("Edit note #" ++ toString nid) now
    else data
  { data1 with
    categories :=
      match new_cat with
      | some cat =>
        if data1.categories.contains cat then data1.categories
        else data1.categories ++ [cat]
      | none => data1.categories,
    notes := data1.notes.map (fun n =>
      if n.id = nid then
        { n with
          title := new_title.getD n.title,
          category := new_cat.getD n.category,
          tags := (new_tags.map parse_tags).getD n.tags,
          body := new_body.getD n.body,
          updated_at := now }
      else n) }

/-- `archive_note(data, note)`, modelled post-confirmation: push an
undo snapshot, set the aliased note's `archived_at`, append it to the
archive, and drop every active note with its id. -/
def archive_note (data : Store) (note : Note) (now : String) : Store :=
  let data1 := push_undo data ("Archive #" ++ toString note.id) now
  { data1 with
    archive := data1.archive ++ [{ note with archived_at := some now }],
    notes := data1.notes.filter (fun n => n.id != note.id) }

/-- `trash_note(data, note)`, modelled post-confirmation: push an undo
snapshot, set the aliased note's `trashed_at`, append it to the trash,
and drop every active note with its id. -/
def trash_note (data : Store) (note : Note) (now : String) : Store :=
  let data1 := push_undo data ("Trash #" ++ toString note.id) now
  { data1 with
    trash := data1.trash ++ [{ note with trashed_at := some now }],
    notes := data1.notes.filter (fun n => n.id != note.id) }

/-- `restore_archived_note(data, note)`: push an undo snapshot, drop
every archived note with the note's id, `pop` its `archived_at`, and
append it to the active collection.  `ts` is the `now_iso()` read of
`push_undo`. -/
def restore_archived_note (data : Store) (note : Note) (ts : String) : Store :=
  let data1 := push_undo data ("Restore #" ++ toString note.id) ts
  { data1 with
    archive := data1.archive.filter (fun n => n.id != note.id),
    notes := data1.notes ++ [{ note with archived_at := none }] }

/-- `restore_trashed_note(data, note)`: push an undo snapshot, drop
every trashed note with the note's id, `pop` its `trashed_at`, and
append it to the active collection. -/
def restore_trashed_note (data : Store) (note : Note) (ts : String) : Store :=
  let data1 := push_undo data ("Restore #" ++ toString note.id ++ " from trash") ts
  { data1 with
    trash := data1.trash.filter (fun n => n.id != note.id),
    notes := data1.notes ++ [{ note with trashed_at := none }] }

/-- The empty-trash branch of `trash_browser`, modelled after the
`EMPTY` confirmation token was typed: push an undo snapshot, then clear
the trash. -/
def empty_trash (data : Store) (ts : String) : Store :=
  let data1 :=
    push_undo data
      ("Empty trash (" ++ toString data.trash.length ++ " notes)") ts
  { data1 with trash := [] }

/- ── Stable sorting (Python `sorted` / `list.sort`) ───────────── -/

/-- Insert `a` before the first element `b` of an already-sorted list
with `le a b`.  With a total-preorder `le` whose ties are `true`, this
is the insertion step of a stable sort. -/
def insertLe (le : α → α → Bool) (a : α) : List α → List α
  | [] => [a]
  | b :: t => if le a b then a :: b :: t else b :: insertLe le a t

/-- Stable insertion sort.  For a transitive, total boolean comparator
`le` this produces exactly the output of Python's stable `sorted(xs)`
with the corresponding key/reverse combination (a stable sort's output
is uniquely determined by the comparator). -/
def stable_sort (le : α → α → Bool) : List α → List α
  | [] => []
  | a :: t => insertLe le a (stable_sort le t)

/- ── Sort/filter pipeline ─────────────────────────────────────── -/

/-- The recency timestamp the sort key uses:
`n.get("updated_at") or n.get("created_at") or ""`. -/
def noteTs (n : Note) : String := pyOr n.updated_at (pyOr n.created_at "")

/-- `len((n.get("body") or "").split())` — the body word count used by
the `words` sort mode. -/
def wordCount (n : Note) : Nat := (pySplit n.body.data).length

/-- The comparison of two notes' sort keys in `sort_notes`' `key(n)`
(`pin` first, then the per-mode component; Python compares the key
tuples lexicographically). -/
def sortKeyCmp (mode : String) (pinned_first : Bool) (a b : Note) : Ordering :=
  let pin : Note → Nat := fun n => if pinned_first && n.pinned then 1 else 0
  let tsCmp := cmpChars (noteTs a).data (noteTs b).data
  (compare (pin a) (pin b)).then
    (if mode = "recent" then tsCmp
     else if mode = "oldest" then .eq
     else if mode = "alpha" then
       cmpChars (lowerChars a.title.data) (lowerChars b.title.data)
     else if mode = "alpha_r" then
       cmpChars (lowerChars a.title.data) (lowerChars b.title.data)
     else if mode = "words" then compare (wordCount a) (wordCount b)
     else if mode = "category" then
       (cmpChars (lowerChars a.category.data) (lowerChars b.category.data)).then tsCmp
     else tsCmp)

/-- `sort_notes(notes, mode, pinned_first)`: a stable sort by `key(n)`,
reversed for `recent` / `alpha_r` / `words` (Python's `reverse=True`
keeps ties in encounter order); the `oldest` mode discards that result
and instead concatenates the pinned and unpinned notes, each stably
sorted by `created_at` ascending. -/
def sort_notes (notes : List Note) (mode : String := "recent")
    (pinned_first : Bool := true) : List Note :=
  let result :=
    if mode = "recent" || mode = "alpha_r" || mode = "words" then
      stable_sort (fun a b => !(sortKeyCmp mode pinned_first a b == .lt)) notes
    else
      stable_sort (fun a b => !(sortKeyCmp mode pinned_first a b == .gt)) notes
  if mode = "oldest" then
    let pinned := if pinned_first then notes.filter (fun n => n.pinned) else []
    let unpinned :=
      if pinned_first then notes.filter (fun n => !n.pinned) else notes
    let byCreated : Note → Note → Bool := fun a b =>
      !(cmpChars (pyOr a.created_at "").data (pyOr b.created_at "").data == .gt)
    stable_sort byCreated pinned ++ stable_sort byCreated unpinned
  else result

/- ── Search engine ────────────────────────────────────────────── -/

/-- `query.lower().split()` — the lowercase whitespace-separated
keywords of the query. -/
def keywords (query : String) : List (List Char) :=
  pySplit (lowerChars query.data)

/-- The lowercase haystack of a note:
`f"{title} {body} {category} {' '.join(tags)}".lower()`
(fields read with `note.get(k) or ''`). -/
def haystack (n : Note) : List Char :=
  lowerChars
    (n.title.data ++ ' ' :: n.body.data ++ ' ' :: n.category.data
      ++ ' ' :: joinSpace n.tags)

/-- `(note.get("title") or "").lower()`. -/
def titleLower (n : Note) : List Char := lowerChars n.title.data

/-- A note matches iff every keyword is a substring of its haystack. -/
def noteMatches (kws : List (List Char)) (n : Note) : Bool :=
  kws.all (fun kw => hasSubstr kw (haystack n))

/-- A matching note's score: the sum over keywords of the haystack
occurrence count, plus a flat `+10` when every keyword is also a
substring of the title alone. -/
def scoreOf (kws : List (List Char)) (n : Note) : Nat :=
  (kws.map (fun kw => strCount kw (haystack n))).sum
    + (if kws.all (fun kw => hasSubstr kw (titleLower n)) then 10 else 0)

/-- The result records `search_notes` accumulates:
`(note, score, bool(note.get("archived_at")))`. -/
def searchCandidates (data : Store) (query : String) : List (Note × Nat × Bool) :=
  (data.notes ++ data.archive).filterMap (fun n =>
    if noteMatches (keywords query) n then
      some (n, scoreOf (keywords query) n, optTruthy n.archived_at)
    else none)

/-- `search_notes(data)` for a non-empty query: collect the matching
notes of `notes + archive` with their scores, then
`results.sort(key=lambda x: -x[1])` — a stable sort by descending
score. -/
def search_results (data : Store) (query : String) : List (Note × Nat × Bool) :=
  stable_sort (fun a b => decide (-(a.2.1 : Int) ≤ -(b.2.1 : Int)))
    (searchCandidates data query)

/- ── Operation sequences (for the id-uniqueness invariant) ────── -/

/-- A create or duplicate request, with its wall-clock reads. -/
inductive NoteOp where
  | create (title body category : String) (tags : List String) (now : String)
  | dup (src : Note) (now : String)

/-- Run one operation against the store. -/
def apply_op (data : Store) : NoteOp → Store
  | .create title body category tags now =>
    create_note data title body category tags now
  | .dup src now => duplicate_note data src now

/-- Run a sequence of operations against the store. -/
def apply_ops (ops : List NoteOp) (data : Store) : Store :=
  ops.foldl apply_op data

/-- No two notes across the three collections share an id. -/
def NodupIds (data : Store) : Prop := (all_ids data).Nodup

instance : DecidablePred NodupIds := fun data =>
  inferInstanceAs (Decidable (all_ids data).Nodup)

/-- A sequence of bare `push_undo` calls (the snapshot pushes performed
by a run of mutating operations), each with its description and
timestamp. -/
def apply_pushes (ps : List (String × String)) (data : Store) : Store :=
  ps.foldl (fun d p => push_undo d p.1 p.2) data

/-- One undo applied to `s'` brings the three collections back to those
of `s`. -/
def restoresPrior (s s' : Store) : Prop :=
  (do_undo s').2.notes = s.notes ∧ (do_undo s').2.archive = s.archive
    ∧ (do_undo s').2.trash = s.trash

/- ── Helper lemmas: stable sort ───────────────────────────────── -/

lemma insertLe_perm (le : α → α → Bool) (a : α) (l : List α) :
    (insertLe le a l).Perm (a :: l) := by
  induction l with
  | nil => exact List.Perm.refl _
  | cons b t ih =>
    by_cases h : le a b = true
    · simp [insertLe, h]
    · simp only [insertLe, h, if_false]
      exact (ih.cons b).trans (List.Perm.swap a b t)

lemma stable_sort_perm (le : α → α → Bool) (l : List α) :
    (stable_sort le l).Perm l := by
  induction l with
  | nil => exact List.Perm.refl _
  | cons a t ih => exact (insertLe_perm le a (stable_sort le t)).trans (ih.cons a)

lemma mem_insertLe {le : α → α → Bool} {a x : α} {l : List α} :
    x ∈ insertLe le a l ↔ x = a ∨ x ∈ l := by
  rw [(insertLe_perm le a l).mem_iff, List.mem_cons]

lemma pairwise_insertLe {le : α → α → Bool}
    (htrans : ∀ a b c, le a b = true → le b c = true → le a c = true)
    (htot : ∀ a b, le a b = true ∨ le b a = true)
    (a : α) {l : List α} (h : l.Pairwise (fun x y => le x y = true)) :
    (insertLe le a l).Pairwise (fun x y => le x y = true) := by
  induction l with
  | nil => simp [insertLe]
  | cons b t ih =>
    rcases List.pairwise_cons.mp h with ⟨hb, ht⟩
    by_cases hab : le a b = true
    · simp only [insertLe, hab, if_true]
      refine List.pairwise_cons.mpr ⟨?_, h⟩
      intro x hx
      rcases List.mem_cons.mp hx with rfl | hx
      · exact hab
      · exact htrans a b x hab (hb x hx)
    · simp only [insertLe, hab, if_false]
      refine List.pairwise_cons.mpr ⟨?_, ih ht⟩
      intro x hx
      rcases mem_insertLe.mp hx with rfl | hx
      · rcases htot x b with h' | h'
        · exact absurd h' hab
        · exact h'
      · exact hb x hx

lemma pairwise_stable_sort {le : α → α → Bool}
    (htrans : ∀ a b c, le a b = true → le b c = true → le a c = true)
    (htot : ∀ a b, le a b = true ∨ le b a = true)
    (l : List α) :
    (stable_sort le l).Pairwise (fun x y => le x y = true) := by
  induction l with
  | nil => simp [stable_sort]
  | cons a t ih => exact pairwise_insertLe htrans htot a ih

/- ── Helper lemmas: character comparison ──────────────────────── -/

lemma cmpChars_self (l : List Char) : cmpChars l l = .eq := by
  induction l with
  | nil => rfl
  | cons a t ih => simp [cmpChars, ih]

lemma ltChars_nil (l : List Char) : ltChars l [] = false := by
  cases l <;> rfl

/- ── Helper lemmas: undo stack ────────────────────────────────── -/

lemma push_undo_getLast (s : Store) (d ts : String) :
    (push_undo s d ts).undo_stack.getLast?
      = some ⟨d, ts, s.notes, s.archive, s.trash⟩ := by
  unfold push_undo
  by_cases h : (s.undo_stack ++ [(⟨d, ts, s.notes, s.archive, s.trash⟩ : Snapshot)]).length > MAX_UNDO
  · simp only [h, if_true]
    have hlen : s.undo_stack.length + 1 > 10 := by
      simpa [MAX_UNDO] using h
    rw [List.drop_append_of_le_length
      (by simp only [List.length_append, List.length_singleton, MAX_UNDO]; omega)]
    exact List.getLast?_concat _
  · simp only [h, if_false]
    exact List.getLast?_concat _

lemma push_undo_length (s : Store) (d ts : String) :
    (push_undo s d ts).undo_stack.length = min (s.undo_stack.length + 1) 10 := by
  unfold push_undo
  by_cases h : (s.undo_stack ++ [(⟨d, ts, s.notes, s.archive, s.trash⟩ : Snapshot)]).length > MAX_UNDO
  · simp only [h, if_true]
    simp only [List.length_drop, List.length_append, List.length_singleton] at h ⊢
    simp only [MAX_UNDO] at h ⊢
    omega
  · simp only [h, if_false]
    simp only [List.length_append, List.length_singleton] at h ⊢
    simp only [MAX_UNDO] at h
    omega

lemma restores_of_push (s base : Store) (d ts : String) (s' : Store)
    (hstack : s'.undo_stack = (push_undo base d ts).undo_stack)
    (hn : base.notes = s.notes) (ha : base.archive = s.archive)
    (ht : base.trash = s.trash) :
    restoresPrior s s' := by
  unfold restoresPrior do_undo
  rw [hstack, push_undo_getLast base d ts]
  simp [hn, ha, ht]

lemma apply_pushes_length (ps : List (String × String)) (s : Store)
    (h : ps ≠ []) :
    (apply_pushes ps s).undo_stack.length
      = min (s.undo_stack.length + ps.length) 10 := by
  induction ps generalizing s with
  | nil => exact absurd rfl h
  | cons p rest ih =>
    by_cases hr : rest = []
    · subst hr
      simpa [apply_pushes] using push_undo_length s p.1 p.2
    · have : apply_pushes (p :: rest) s = apply_pushes rest (push_undo s p.1 p.2) := rfl
      rw [this, ih _ hr, push_undo_length]
      simp only [List.length_cons]
      omega

/- ── Helper lemmas: id freshness ──────────────────────────────── -/

lemma le_foldl_max (a : Int) (l : List Int) :
    ∀ x ∈ a :: l, x ≤ l.foldl max a := by
  induction l generalizing a with
  | nil => intro x hx; simp at hx; simp [hx]
  | cons b t ih =>
    intro x hx
    have hmem : max a b ∈ max a b :: t := List.mem_cons_self _ _
    have hle : max a b ≤ t.foldl max (max a b) := ih (max a b) _ hmem
    rcases List.mem_cons.mp hx with rfl | hx
    · calc x ≤ max x b := le_max_left x b
        _ ≤ t.foldl max (max x b) := hle
        _ = (b :: t).foldl max x := rfl
    · rcases List.mem_cons.mp hx with rfl | hx
      · calc x ≤ max a x := le_max_right a x
          _ ≤ t.foldl max (max a x) := hle
          _ = (x :: t).foldl max a := rfl
      · exact ih (max a b) x (List.mem_cons_of_mem _ hx)

lemma lt_next_id (s : Store) : ∀ i ∈ all_ids s, i < next_id s := by
  intro i hi
  cases h : all_ids s with
  | nil => rw [h] at hi; simp at hi
  | cons a rest =>
    rw [h] at hi
    have hle := le_foldl_max a rest i hi
    unfold next_id
    rw [h]
    show i < rest.foldl max a + 1
    omega

lemma all_ids_eq (s : Store) : all_ids s = (allNotes s).map Note.id := by
  simp [all_ids, allNotes]

lemma nodup_insert_fresh {N A T : List Int} {i : Int}
    (h : (N ++ A ++ T).Nodup) (hi : i ∉ N ++ A ++ T) :
    ((N ++ [i]) ++ A ++ T).Nodup := by
  have hperm : ((N ++ [i]) ++ A ++ T).Perm (i :: (N ++ A ++ T)) := by
    refine List.perm_iff_count.mpr (fun a => ?_)
    simp only [List.count_append, List.count_cons, List.count_nil,
      List.count_singleton]
    omega
  exact hperm.nodup_iff.mpr (List.nodup_cons.mpr ⟨hi, h⟩)

lemma filterMap_if_fst (l : List Note) (p : Note → Bool)
    (f : Note → Nat) (g : Note → Bool) :
    (l.filterMap (fun n => if p n then some (n, f n, g n) else none)).map Prod.fst
      = l.filter p := by
  induction l with
  | nil => rfl
  | cons a t ih =>
    by_cases h : p a
    · simp [List.filterMap_cons, List.filter_cons, h, ih]
    · simp [List.filterMap_cons, List.filter_cons, h, ih]

/- ── Concrete sample data (used by witnesses / counterexamples) ── -/

/-- An unpinned active note. -/
def wNoteA : Note :=
  { id := 1, title := "Groceries", body := "milk eggs", category := "General",
    tags := ["shopping"], pinned := false,
    created_at := "2024-01-01T10:00:00", updated_at := "2024-01-01T10:00:00" }

/-- A pinned active note with an older `updated_at` than `wNoteA`. -/
def wNoteB : Note :=
  { id := 2, title := "Zebra plan", body := "one two three", category := "Work",
    tags := [], pinned := true,
    created_at := "2023-12-01T09:00:00", updated_at := "2023-12-31T09:00:00" }

/-- A note trashed exactly at the purge cutoff instant. -/
def wTrashedOld : Note :=
  { id := 3, title := "old", body := "see plan", category := "General", tags := [],
    pinned := false, created_at := "2024-01-01T00:00:00",
    updated_at := "2024-01-01T00:00:00",
    trashed_at := some "2024-01-31T12:00:00" }

/-- A note trashed a day after the purge cutoff. -/
def wTrashedNew : Note :=
  { id := 4, title := "new", body := "", category := "General", tags := [],
    pinned := false, created_at := "2024-01-02T00:00:00",
    updated_at := "2024-01-02T00:00:00",
    trashed_at := some "2024-02-01T09:00:00" }

/-- A trash entry whose `trashed_at` key is missing. -/
def wTrashedNone : Note :=
  { id := 5, title := "stray", body := "", category := "General", tags := [],
    pinned := false, created_at := "2024-01-03T00:00:00",
    updated_at := "2024-01-03T00:00:00", trashed_at := none }

/-- A small store exercising all three collections. -/
def wStore : Store :=
  { notes := [wNoteA, wNoteB], archive := [],
    trash := [wTrashedOld, wTrashedNew, wTrashedNone],
    categories := ["General", "Work"], undo_stack := [] }

/-- The empty store. -/
def wEmpty : Store :=
  { notes := [], archive := [], trash := [], categories := [], undo_stack := [] }

/- ── Claim theorems ───────────────────────────────────────────── -/

/-- C5: auto-purge (run at store load) keeps a trash entry iff its
`trashed_at` string is strictly greater than the cutoff string
`(now - trashDays days).isoformat()` — so an entry whose `trashed_at`
is the cutoff or earlier (trashDays or more before now) is permanently
removed, and in particular one whose `trashed_at` equals the cutoff
(trashed exactly trashDays ago) is purged; the active and archive
collections and the undo stack are untouched (no snapshot is pushed);
and the store is re-persisted exactly when at least one entry was
purged. -/
theorem C5_auto_purge_boundary (s : Store) (cutoff : String) :
    (∀ n, n ∈ (auto_purge_trash s cutoff).1.trash ↔
        n ∈ s.trash ∧ ltChars cutoff.data (trashedStr n).data = true)
    ∧ (∀ n ∈ s.trash, trashedStr n = cutoff →
        n ∉ (auto_purge_trash s cutoff).1.trash)
    ∧ (auto_purge_trash s cutoff).1.notes = s.notes
    ∧ (auto_purge_trash s cutoff).1.archive = s.archive
    ∧ (auto_purge_trash s cutoff).1.undo_stack = s.undo_stack
    ∧ ((auto_purge_trash s cutoff).2 = true ↔
        (auto_purge_trash s cutoff).1.trash.length < s.trash.length) := by
  refine ⟨fun n => List.mem_filter, ?_, rfl, rfl, rfl, ?_⟩
  · intro n _ heq hmem
    have hpred := (List.mem_filter.mp hmem).2
    rw [heq] at hpred
    simp only [ltChars, cmpChars_self] at hpred
    exact absurd hpred (by decide)
  · show decide (s.trash.length
          - (s.trash.filter (fun n => ltChars cutoff.data (trashedStr n).data)).length > 0) = true
        ↔ (s.trash.filter (fun n => ltChars cutoff.data (trashedStr n).data)).length
            < s.trash.length
    have hle := List.length_filter_le
      (fun n => ltChars cutoff.data (trashedStr n).data) s.trash
    simp only [decide_eq_true_eq]
    omega

/-- C5 witness: with cutoff `2024-01-31T12:00:00`, the entry trashed
exactly at the cutoff and the entry with a missing `trashed_at` are
purged, the entry trashed a day later is retained, the other
collections and the undo stack survive untouched, and the store is
re-persisted. -/
theorem C5_auto_purge_boundary_witness :
    wTrashedOld ∉ (auto_purge_trash wStore "2024-01-31T12:00:00").1.trash
    ∧ wTrashedNew ∈ (auto_purge_trash wStore "2024-01-31T12:00:00").1.trash
    ∧ (auto_purge_trash wStore "2024-01-31T12:00:00").1.notes = wStore.notes
    ∧ (auto_purge_trash wStore "2024-01-31T12:00:00").1.undo_stack = wStore.undo_stack
    ∧ (auto_purge_trash wStore "2024-01-31T12:00:00").2 = true := by
  obtain ⟨hiff, hbound, hnotes, _, hstack, hsave⟩ :=
    C5_auto_purge_boundary wStore "2024-01-31T12:00:00"
  exact ⟨hbound wTrashedOld (by decide) (by decide),
    (hiff wTrashedNew).mpr (by decide), hnotes, hstack, hsave.mpr (by decide)⟩

/-- C8: the undo stack is bounded by 10: a push yields length
`min (old + 1) 10`; pushing onto a stack of length exactly 10 drops the
oldest snapshot and appends the new one (keeping the most recent 10);
and after more than 10 pushes the stack length is exactly 10. -/
theorem C8_undo_stack_bound (s : Store) (d ts : String)
    (ps : List (String × String)) (hps : ps.length > 10) :
    (push_undo s d ts).undo_stack.length = min (s.undo_stack.length + 1) 10
    ∧ (s.undo_stack.length = 10 →
        (push_undo s d ts).undo_stack
          = s.undo_stack.drop 1 ++ [⟨d, ts, s.notes, s.archive, s.trash⟩])
    ∧ (apply_pushes ps s).undo_stack.length = 10 := by
  refine ⟨push_undo_length s d ts, ?_, ?_⟩
  · intro hlen
    unfold push_undo
    have hcond : (s.undo_stack ++ [(⟨d, ts, s.notes, s.archive, s.trash⟩ : Snapshot)]).length > MAX_UNDO := by
      simp [hlen, MAX_UNDO]
    simp only [hcond, if_true]
    rw [List.drop_append_of_le_length (by simp [hlen, MAX_UNDO])]
    simp [hlen, MAX_UNDO]
  · have hne : ps ≠ [] := by
      intro h; rw [h] at hps; simp at hps
    rw [apply_pushes_length ps s hne]
    omega

/-- C8 witness: eleven pushes onto the empty store leave exactly 10
snapshots; pushing onto a 10-deep stack keeps the most recent 10. -/
theorem C8_undo_stack_bound_witness :
    (push_undo wEmpty "d" "t").undo_stack.length
        = min (wEmpty.undo_stack.length + 1) 10
    ∧ (wEmpty.undo_stack.length = 10 →
        (push_undo wEmpty "d" "t").undo_stack
          = wEmpty.undo_stack.drop 1
              ++ [⟨"d", "t", wEmpty.notes, wEmpty.archive, wEmpty.trash⟩])
    ∧ (apply_pushes (List.replicate 11 ("d", "t")) wEmpty).undo_stack.length = 10 :=
  C8_undo_stack_bound wEmpty "d" "t" (List.replicate 11 ("d", "t")) (by decide)

/-- C9: undoing with an empty undo stack is a benign no-op: it reports
`None` ("nothing to undo") and returns the store — all three
collections and the stack — completely unchanged. -/
theorem C9_undo_empty_noop (s : Store) (h : s.undo_stack = []) :
    do_undo s = (none, s) := by
  unfold do_undo
  rw [h]
  rfl

/-- C9 witness: undo on the empty store changes nothing. -/
theorem C9_undo_empty_noop_witness : do_undo wEmpty = (none, wEmpty) :=
  C9_undo_empty_noop wEmpty rfl

/-- C10: auto-purge removes every trash entry whose `trashed_at` is
missing (`None`) or the empty string, for every cutoff (hence for every
`trashDays` setting and however recently it was trashed): the guard
`(n.get("trashed_at") or "") > cutoff` is false because `""` is never
strictly greater than any string. -/
theorem C10_purge_missing_trashed_at (s : Store) (cutoff : String) (n : Note)
    (_hmem : n ∈ s.trash) (h : n.trashed_at = none ∨ n.trashed_at = some "") :
    n ∉ (auto_purge_trash s cutoff).1.trash := by
  intro hcontra
  have hpred := (List.mem_filter.mp hcontra).2
  have hstr : trashedStr n = "" := by
    rcases h with h | h <;> simp [trashedStr, h]
  rw [hstr] at hpred
  rw [show ("" : String).data = [] from rfl, ltChars_nil] at hpred
  exact absurd hpred (by simp)

/-- C10 witness: the trash entry with no `trashed_at` key does not
survive the purge, even against a far-past cutoff. -/
theorem C10_purge_missing_trashed_at_witness :
    wTrashedNone ∉ (auto_purge_trash wStore "1970-01-01T00:00:00").1.trash :=
  C10_purge_missing_trashed_at wStore "1970-01-01T00:00:00" wTrashedNone
    (by decide) (Or.inl rfl)

/-- C6: archiving an active note (one whose `archived_at` is unset and
whose id is not already in the archive) and then restoring it from the
archive puts it back in the active collection, appended at the end,
with `archived_at` cleared and every other field identical — the
appended note is exactly the original note value — and leaves the
archive as it was. -/
theorem C6_archive_restore_roundtrip (s : Store) (note : Note) (now ts : String)
    (harch : note.archived_at = none)
    (hid : ∀ m ∈ s.archive, m.id ≠ note.id) :
    (restore_archived_note (archive_note s note now)
        { note with archived_at := some now } ts).notes
      = s.notes.filter (fun n => n.id != note.id) ++ [note]
    ∧ (restore_archived_note (archive_note s note now)
        { note with archived_at := some now } ts).archive = s.archive := by
  constructor
  · show s.notes.filter (fun n => n.id != note.id)
        ++ [{ note with archived_at := none }]
      = s.notes.filter (fun n => n.id != note.id) ++ [note]
    have hn : ({ note with archived_at := none } : Note) = note := by
      cases note
      simp_all
    rw [hn]
  · show (s.archive ++ [{ note with archived_at := some now }]).filter
        (fun n => n.id != note.id) = s.archive
    rw [List.filter_append]
    have h1 : s.archive.filter (fun n => n.id != note.id) = s.archive :=
      List.filter_eq_self.mpr (fun m hm => by simpa using hid m hm)
    have h2 : ([{ note with archived_at := some now }] : List Note).filter
        (fun n => n.id != note.id) = [] := by simp
    rw [h1, h2, List.append_nil]

/-- C6 witness: archiving and restoring `wNoteA` in `wStore` returns it
verbatim at the end of the active collection and leaves the archive
unchanged. -/
theorem C6_archive_restore_roundtrip_witness :
    (restore_archived_note (archive_note wStore wNoteA "2024-02-01T00:00:00")
        { wNoteA with archived_at := some "2024-02-01T00:00:00" }
        "2024-02-02T00:00:00").notes
      = wStore.notes.filter (fun n => n.id != wNoteA.id) ++ [wNoteA]
    ∧ (restore_archived_note (archive_note wStore wNoteA "2024-02-01T00:00:00")
        { wNoteA with archived_at := some "2024-02-01T00:00:00" }
        "2024-02-02T00:00:00").archive = wStore.archive :=
  C6_archive_restore_roundtrip wStore wNoteA "2024-02-01T00:00:00"
    "2024-02-02T00:00:00" rfl (by decide)

/- Auxiliary computations of `all_ids` after a create / duplicate. -/

lemma all_ids_create (s : Store) (t b c : String) (tg : List String)
    (now : String) :
    all_ids (create_note s t b c tg now)
      = (s.notes.map Note.id ++ [next_id s]) ++ s.archive.map Note.id
          ++ s.trash.map Note.id := by
  have hnid : next_id { s with categories :=
      (if s.categories.contains c then s.categories
       else s.categories ++ [c]) } = next_id s := rfl
  simp only [create_note, all_ids, push_undo, List.map_append, List.map_cons,
    List.map_nil, hnid]

lemma all_ids_dup (s : Store) (src : Note) (now : String) :
    all_ids (duplicate_note s src now)
      = (s.notes.map Note.id ++ [next_id s]) ++ s.archive.map Note.id
          ++ s.trash.map Note.id := by
  simp only [duplicate_note, all_ids, push_undo, List.map_append,
    List.map_cons, List.map_nil]

lemma nodupIds_apply_op (s : Store) (op : NoteOp) (h : NodupIds s) :
    NodupIds (apply_op s op) := by
  have hfresh : next_id s ∉ all_ids s := fun hc =>
    absurd (lt_next_id s _ hc) (lt_irrefl _)
  cases op with
  | create t b c tg now =>
    show ((all_ids (create_note s t b c tg now))).Nodup
    rw [all_ids_create]
    exact nodup_insert_fresh h hfresh
  | dup src now =>
    show ((all_ids (duplicate_note s src now))).Nodup
    rw [all_ids_dup]
    exact nodup_insert_fresh h hfresh

lemma nodupIds_apply_ops (ops : List NoteOp) :
    ∀ s : Store, NodupIds s → NodupIds (apply_ops ops s) := by
  induction ops with
  | nil => exact fun _ h => h
  | cons op rest ih =>
    exact fun s h => ih (apply_op s op) (nodupIds_apply_op s op h)

/-- C7: starting from a store whose ids are globally distinct across
active, archive and trash, every sequence of create and duplicate
operations preserves that distinctness; the reason is that `next_id`
(max of all existing ids plus one, or 1 on an empty store) is strictly
greater than every existing id. -/
theorem C7_id_uniqueness (s : Store) (ops : List NoteOp) (h : NodupIds s) :
    NodupIds (apply_ops ops s) ∧ ∀ n ∈ allNotes s, n.id < next_id s := by
  refine ⟨nodupIds_apply_ops ops s h, fun n hn => ?_⟩
  apply lt_next_id
  rw [all_ids_eq]
  exact List.mem_map_of_mem Note.id hn

/-- C7 witness: a create followed by duplicating `wNoteA`, run against
`wStore`, keeps all ids distinct, and every id of `wStore` is below
`next_id wStore`. -/
theorem C7_id_uniqueness_witness :
    NodupIds (apply_ops
        [NoteOp.create "T" "B" "General" [] "2024-05-01T00:00:00",
         NoteOp.dup wNoteA "2024-05-01T00:01:00"] wStore)
    ∧ ∀ n ∈ allNotes wStore, n.id < next_id wStore :=
  C7_id_uniqueness wStore
    [NoteOp.create "T" "B" "General" [] "2024-05-01T00:00:00",
     NoteOp.dup wNoteA "2024-05-01T00:01:00"] (by decide)

/-- C2: evaluation of `sort_notes` at a concrete input exhibiting that
the `alpha` mode does *not* place pinned notes first: with the pinned
note `wNoteB` ("Zebra plan") and the unpinned `wNoteA` ("Groceries"),
the alphabetical sort returns the unpinned note first and the pinned
note last — the `(pin, key)` tuple with `pin = 1` for pinned notes is
sorted ascending without `reverse` in the `alpha` (and `category`)
branches, so pinned notes sink to the bottom, contradicting
`pinned_first=True`. -/
theorem C2_alpha_sorts_pinned_last :
    sort_notes [wNoteB, wNoteA] "alpha" = [wNoteA, wNoteB]
    ∧ wNoteB.pinned = true ∧ wNoteA.pinned = false := by decide

/-- C3: for a non-empty query, a note is in the search result set iff
it belongs to the union of the active and archive collections (trash is
never searched) and every lowercase whitespace-separated keyword of the
query is a substring of the note's lowercase haystack — a note
containing only some of the keywords is excluded. -/
theorem C3_search_and_semantics (data : Store) (query : String) (n : Note)
    (_hq : query ≠ "") :
    n ∈ (search_results data query).map Prod.fst
      ↔ n ∈ data.notes ++ data.archive
        ∧ ∀ kw ∈ keywords query, hasSubstr kw (haystack n) = true := by
  have hperm : ((search_results data query).map Prod.fst).Perm
      ((searchCandidates data query).map Prod.fst) :=
    (stable_sort_perm _ _).map _
  rw [hperm.mem_iff,
    show (searchCandidates data query).map Prod.fst
        = (data.notes ++ data.archive).filter (noteMatches (keywords query))
      from filterMap_if_fst _ _ _ _,
    List.mem_filter]
  simp [noteMatches, List.all_eq_true]

/-- C3 witness: in `wStore`, "groceries" finds `wNoteA` (its haystack
contains the keyword) through the stated equivalence. -/
theorem C3_search_and_semantics_witness :
    wNoteA ∈ (search_results wStore "groceries").map Prod.fst
      ↔ wNoteA ∈ wStore.notes ++ wStore.archive
        ∧ ∀ kw ∈ keywords "groceries",
            hasSubstr kw (haystack wNoteA) = true :=
  C3_search_and_semantics wStore "groceries" wNoteA (by decide)

/-- C4: every result's score is the sum over the query's keywords of
its (non-overlapping) occurrence count in the lowercase haystack, plus
a flat `+10` exactly when every keyword is a substring of the title
alone; two notes with equal keyword-occurrence sums where only the
first has all keywords in its title differ by exactly 10; and the
result list is ordered by descending score. -/
theorem C4_search_scoring (data : Store) (query : String)
    (kws : List (List Char)) (n1 n2 : Note)
    (hsum : (kws.map (fun kw => strCount kw (haystack n1))).sum
        = (kws.map (fun kw => strCount kw (haystack n2))).sum)
    (ht1 : kws.all (fun kw => hasSubstr kw (titleLower n1)) = true)
    (ht2 : kws.all (fun kw => hasSubstr kw (titleLower n2)) = false) :
    (∀ r ∈ search_results data query,
      r.2.1 = ((keywords query).map (fun kw => strCount kw (haystack r.1))).sum
        + (if (keywords query).all (fun kw => hasSubstr kw (titleLower r.1))
           then 10 else 0))
    ∧ scoreOf kws n1 = scoreOf kws n2 + 10
    ∧ List.Pairwise (fun a b => b.2.1 ≤ a.2.1) (search_results data query) := by
  refine ⟨?_, ?_, ?_⟩
  · intro r hr
    have hr' : r ∈ searchCandidates data query :=
      (stable_sort_perm _ _).mem_iff.mp hr
    rcases List.mem_filterMap.mp hr' with ⟨a, _, hsome⟩
    by_cases hc : noteMatches (keywords query) a
    · rw [if_pos hc] at hsome
      cases hsome
      rfl
    · rw [if_neg hc] at hsome
      cases hsome
  · simp only [scoreOf, ht1, ht2, if_true, if_false, hsum]
    simp
  · have hp := @pairwise_stable_sort _
      (fun a b : Note × Nat × Bool =>
        decide (-(a.2.1 : Int) ≤ -(b.2.1 : Int)))
      (fun a b c hab hbc => by
        simp only [decide_eq_true_eq] at *
        omega)
      (fun a b => by
        simp only [decide_eq_true_eq]
        omega)
      (searchCandidates data query)
    exact hp.imp (fun h => by
      simp only [decide_eq_true_eq] at h
      omega)

/-- C4 witness: searching `wStore` for "groceries": `wNoteA` carries
the keyword once in the title and once nowhere else and gets the title
bonus; the comparative and ordering conjuncts hold at two concrete
notes with equal occurrence sums. -/
theorem C4_search_scoring_witness :
    (∀ r ∈ search_results wStore "groceries",
      r.2.1 = ((keywords "groceries").map
            (fun kw => strCount kw (haystack r.1))).sum
        + (if (keywords "groceries").all
              (fun kw => hasSubstr kw (titleLower r.1))
           then 10 else 0))
    ∧ scoreOf (keywords "plan") wNoteB
        = scoreOf (keywords "plan") wTrashedOld + 10
    ∧ List.Pairwise (fun a b => b.2.1 ≤ a.2.1)
        (search_results wStore "groceries") :=
  C4_search_scoring wStore "groceries" (keywords "plan") wNoteB wTrashedOld
    (by decide) (by decide) (by decide)

/-- C1 counterexample: `toggle_pin` is a mutating core command that
changes a note's `pinned` field and persists, but pushes *no* undo
snapshot — flipping the pin of note 1 in `wStore` leaves the undo
stack empty while the active collection changes, so one undo
afterwards (a no-op on the empty stack) does not restore the
immediately-prior state, refuting the claim as stated. -/
theorem C1_toggle_pin_counterexample :
    (toggle_pin wStore 1).undo_stack = wStore.undo_stack
    ∧ (toggle_pin wStore 1).notes ≠ wStore.notes
    ∧ (do_undo (toggle_pin wStore 1)).2.notes ≠ wStore.notes := by decide

/-- C1 (amended): for every mutating operation exposed at the core
boundary that changes collection membership or note content *except
toggle-pin* — create, edit (when it applies at least one field
change), append-body, duplicate, archive, trash, restore-from-archive,
restore-from-trash, empty-trash — an undo snapshot of the three
collections as they were immediately before the mutation is pushed
onto the undo stack before the mutation is applied, so one undo after
any such operation restores the immediately-prior observable state of
active, archive and trash; toggle-pin mutates and saves without
pushing a snapshot and is therefore not undoable. -/
theorem C1_snapshot_before_mutation (s : Store) (note : Note) (nid : Int)
    (title body category now ts : String) (tags : List String)
    (nt nc ng nb : Option String)
    (hedit : (nt.isSome || nc.isSome || ng.isSome || nb.isSome) = true) :
    restoresPrior s (create_note s title body category tags now)
    ∧ restoresPrior s (edit_note s nid nt nc ng nb now)
    ∧ restoresPrior s (append_to_note s nid body now)
    ∧ restoresPrior s (duplicate_note s note now)
    ∧ restoresPrior s (archive_note s note now)
    ∧ restoresPrior s (trash_note s note now)
    ∧ restoresPrior s (restore_archived_note s note ts)
    ∧ restoresPrior s (restore_trashed_note s note ts)
    ∧ restoresPrior s (empty_trash s ts) := by
  refine ⟨restores_of_push s _ _ _ _ rfl rfl rfl rfl, ?_,
    restores_of_push s _ _ _ _ rfl rfl rfl rfl,
    restores_of_push s _ _ _ _ rfl rfl rfl rfl,
    restores_of_push s _ _ _ _ rfl rfl rfl rfl,
    restores_of_push s _ _ _ _ rfl rfl rfl rfl,
    restores_of_push s _ _ _ _ rfl rfl rfl rfl,
    restores_of_push s _ _ _ _ rfl rfl rfl rfl,
    restores_of_push s _ _ _ _ rfl rfl rfl rfl⟩
  unfold edit_note
  simp only [hedit, if_true]
  exact restores_of_push s _ _ _ _ rfl rfl rfl rfl

/-- C1 witness: each snapshot-pushing operation, run against `wStore`
at concrete inputs (the edit changing the title), is reverted by one
undo. -/
theorem C1_snapshot_before_mutation_witness :
    restoresPrior wStore
        (create_note wStore "T" "B" "General" [] "2024-06-01T00:00:00")
    ∧ restoresPrior wStore
        (edit_note wStore 1 (some "New") none none none "2024-06-01T00:00:00")
    ∧ restoresPrior wStore
        (append_to_note wStore 1 "B" "2024-06-01T00:00:00")
    ∧ restoresPrior wStore (duplicate_note wStore wNoteA "2024-06-01T00:00:00")
    ∧ restoresPrior wStore (archive_note wStore wNoteA "2024-06-01T00:00:00")
    ∧ restoresPrior wStore (trash_note wStore wNoteA "2024-06-01T00:00:00")
    ∧ restoresPrior wStore
        (restore_archived_note wStore wNoteA "2024-06-02T00:00:00")
    ∧ restoresPrior wStore
        (restore_trashed_note wStore wNoteA "2024-06-02T00:00:00")
    ∧ restoresPrior wStore (empty_trash wStore "2024-06-02T00:00:00") :=
  C1_snapshot_before_mutation wStore wNoteA 1 "T" "B" "General"
    "2024-06-01T00:00:00" "2024-06-02T00:00:00" [] (some "New") none none none
    (by decide)

end NotesVault
